import Mathlib

/-!
Verification of the configuration-selection core of the persistent-run-buttons
extension (src/extension.ts), as a shallow embedding in Lean.

Data model: a `WorkspaceFolder` is a workspace root (display name plus index);
a `DebugConfiguration` is the payload read from launch settings (its `type`
and `configurations` fields are `Option`s, `none` meaning the property is
absent from the object); a `LaunchConfig` is the working entry triple built by
`getAllConfigs`. `LaunchRoot` packages what `workspace.getConfiguration`
returns for one folder: its plain configuration list and its compound list.
The workspace is `Option (List LaunchRoot)`, `none` modelling an undefined
`workspace.workspaceFolders`.
-/

namespace PersistentRunButtons

structure WorkspaceFolder where
  name : String
  index : Nat
deriving DecidableEq

structure DebugConfiguration where
  name : String
  type : Option String
  configurations : Option (List String)
deriving DecidableEq

structure LaunchConfig where
  name : String
  config : DebugConfiguration
  folder : WorkspaceFolder
deriving DecidableEq

structure LaunchRoot where
  folder : WorkspaceFolder
  configurations : List DebugConfiguration
  compounds : List DebugConfiguration
deriving DecidableEq

/-- Embeds `isCompound` (extension.ts lines 145-148): a compound has a
`configurations` property and no `type` property. -/
def isCompound (config : DebugConfiguration) : Bool :=
  config.configurations.isSome && !config.type.isSome

/-- Embeds `getAllConfigs` (extension.ts lines 150-173): for each folder, in
order, push an entry for each element of `[configurations, compounds].flat()`.
`none` is the undefined `workspace.workspaceFolders`, returning the empty
accumulator. -/
def getAllConfigs (ws : Option (List LaunchRoot)) : List LaunchConfig :=
  match ws with
  | none => []
  | some workspaceFolders =>
    workspaceFolders.foldl
      (fun configs folder =>
        configs ++ ([folder.configurations, folder.compounds].flatten).map
          (fun config => { name := config.name, config := config, folder := folder.folder }))
      []

/-- Embeds `getConfigKey` (extension.ts lines 175-177). -/
def getConfigKey (cfg : LaunchConfig) : String :=
  cfg.folder.name ++ ":" ++ cfg.name

/-- JavaScript `key.split(':')`: split on every occurrence of the single
character `:`, modelled on the key's character list (`List.splitOnP` has
exactly the semantics of splitting on each separator occurrence, including
`"" ↦ [""]` and empty components around adjacent separators). -/
def splitKey (key : String) : List String :=
  (key.data.splitOnP (fun c => c == ':')).map String.mk

/-- Embeds `getConfigFromKey` (extension.ts lines 179-183). The destructuring
`[folderName, configName] = key.split(':')` takes the first two components,
each `undefined` (here `none`) when missing, and `===` against `undefined`
is then always false. -/
def getConfigFromKey (key : String) (ws : Option (List LaunchRoot)) : Option LaunchConfig :=
  let parts := splitKey key
  let folderName := parts[0]?
  let configName := parts[1]?
  (getAllConfigs ws).find?
    (fun cfg => some cfg.folder.name == folderName && some cfg.name == configName)

/-- The value handed to `debug.startDebugging`: a compound is dispatched by
name, a plain configuration by its full payload object. -/
inductive ConfigToStart where
  | byName (name : String)
  | byConfig (config : DebugConfiguration)
deriving DecidableEq

/-- Embeds the dispatch-target computation of `runSelectedCommand` /
`debugSelectedCommand` (extension.ts lines 96 and 110):
`isCompound(cfg.config) ? cfg.config.name : cfg.config`. -/
def configToStart (cfg : LaunchConfig) : ConfigToStart :=
  if isCompound cfg.config then .byName cfg.config.name else .byConfig cfg.config

/-- Embeds the selection-validation block of `updateStatusBar` (extension.ts
lines 245-254), the operation the specification calls `reconcile()`: if a
selection is set but no current entry matches its (folder name, name) pair,
replace it with the first enumerated entry, or clear it when none exist. -/
def reconcile (sel : Option LaunchConfig) (ws : Option (List LaunchRoot)) :
    Option LaunchConfig :=
  match sel with
  | none => none
  | some s =>
    let configs := getAllConfigs ws
    if configs.any (fun cfg => cfg.folder.name == s.folder.name && cfg.name == s.name)
    then some s
    else configs.head?

/-- Embeds the display-text computation of `updateStatusBar` (extension.ts
lines 256-260). -/
def statusBarText (sel : Option LaunchConfig) : String :=
  match sel with
  | some s => "$(debug-configure) " ++ s.name
  | none => "$(debug-configure) No Config"

/-- Embeds `updateStatusBar` (extension.ts lines 240-261) as a state
transformer on the selection: when `configButton` does not exist the function
returns at line 242 without validating, leaving the selection untouched. -/
def updateStatusBar (configButtonExists : Bool) (sel : Option LaunchConfig)
    (ws : Option (List LaunchRoot)) : Option LaunchConfig :=
  if configButtonExists then reconcile sel ws else sel

/-- Embeds the startup selection of `activate` (extension.ts lines 30-41):
restore from the persisted key when truthy (the empty string is falsy in
JavaScript), and fall back to the first enumerated entry. -/
def initialSelection (persistedKey : Option String) (ws : Option (List LaunchRoot)) :
    Option LaunchConfig :=
  let restored := match persistedKey with
    | some key => if key == "" then none else getConfigFromKey key ws
    | none => none
  match restored with
  | some c => some c
  | none => (getAllConfigs ws).head?

/-- A second reading of `resolve`, following the specification's words: split
the key on the FIRST `:` only, the config-name component being everything
after that first separator; none when the key has fewer than two components.
Used to compare the spec's description with `getConfigFromKey`. -/
def resolveSpec (key : String) (ws : Option (List LaunchRoot)) : Option LaunchConfig :=
  match splitKey key with
  | folderName :: second :: rest =>
    let configName := String.intercalate ":" (second :: rest)
    (getAllConfigs ws).find?
      (fun cfg => cfg.folder.name == folderName && cfg.name == configName)
  | _ => none

/-!
Transition system for the event-driven behaviour of `activate`: the state
carries the current workspace snapshot, the module-level `selectedConfig`,
and the `lastConfigKey` value in `workspaceState`. The `configButtonExists`
flag says whether `updateStatusBarVisibility` has created the status-bar
items (it has iff `showInStatusBar` has been enabled); it gates the
validation block of `updateStatusBar`.
-/

structure SysState where
  ws : Option (List LaunchRoot)
  sel : Option LaunchConfig
  persistedKey : Option String
deriving DecidableEq

/-- External events delivered to the extension, one at a time.
`configurationChanged` covers both `onDidChangeWorkspaceFolders` and
`onDidChangeConfiguration` affecting `launch`: the workspace snapshot is
replaced and `updateStatusBar` runs. The `pick` argument models the user's
quick-pick answer: the chosen index, or `none` when dismissed. -/
inductive Event where
  | configurationChanged (ws : Option (List LaunchRoot))
  | selectConfig (pick : Option Nat)
  | runSelected (pick : Option Nat)
  | debugSelected (pick : Option Nat)
deriving DecidableEq

/-- Embeds the `persistentRunButton.selectConfig` command body (extension.ts
lines 49-78): with no configurations only a message is shown; a dismissed
picker mutates nothing; a chosen entry becomes the selection, its key is
persisted, and `updateStatusBar` runs. -/
def selectStep (configButtonExists : Bool) (st : SysState) (pick : Option Nat) : SysState :=
  let configs := getAllConfigs st.ws
  if configs.isEmpty then st
  else
    match pick with
    | none => st
    | some i =>
      match configs[i]? with
      | none => st
      | some cfg =>
        { st with
          sel := updateStatusBar configButtonExists (some cfg) st.ws,
          persistedKey := some (getConfigKey cfg) }

/-- One event step. The second component is the dispatch to
`debug.startDebugging`, when one happens: the dispatched entry together with
the `noDebug` flag (the actual call passes `(cfg.folder, configToStart cfg)`
and the flag). `runSelected`/`debugSelected` (extension.ts lines 87-112)
dispatch the current selection directly; when none is set they first run the
select command and dispatch its outcome, if any. -/
def step (configButtonExists : Bool) (st : SysState) (e : Event) :
    SysState × Option (LaunchConfig × Bool) :=
  match e with
  | .configurationChanged ws2 =>
    ({ ws := ws2,
       sel := updateStatusBar configButtonExists st.sel ws2,
       persistedKey := st.persistedKey }, none)
  | .selectConfig pick => (selectStep configButtonExists st pick, none)
  | .runSelected pick =>
    match st.sel with
    | some cfg => (st, some (cfg, true))
    | none =>
      let st2 := selectStep configButtonExists st pick
      match st2.sel with
      | some cfg => (st2, some (cfg, true))
      | none => (st2, none)
  | .debugSelected pick =>
    match st.sel with
    | some cfg => (st, some (cfg, false))
    | none =>
      let st2 := selectStep configButtonExists st pick
      match st2.sel with
      | some cfg => (st2, some (cfg, false))
      | none => (st2, none)

/-- State after `activate` (extension.ts lines 26-41): selection restored or
defaulted, persisted key as stored. -/
def initialState (persistedKey : Option String) (ws : Option (List LaunchRoot)) : SysState :=
  { ws := ws, sel := initialSelection persistedKey ws, persistedKey := persistedKey }

/-- Folds a list of events through `step`, keeping the state. -/
def runEvents (configButtonExists : Bool) (st : SysState) (events : List Event) : SysState :=
  events.foldl (fun s e => (step configButtonExists s e).1) st

/-- Two entries match when their (folder display name, configuration name)
pairs agree — the identity used by keys and by reconciliation. -/
def samePair (c s : LaunchConfig) : Prop :=
  c.folder.name = s.folder.name ∧ c.name = s.name

instance (c s : LaunchConfig) : Decidable (samePair c s) := by
  unfold samePair; infer_instance

/-! Concrete fixtures used by witnesses and counterexamples. -/

def folderR : WorkspaceFolder := { name := "R", index := 0 }

def folderA : WorkspaceFolder := { name := "RootA", index := 0 }

def folderB : WorkspaceFolder := { name := "RootB", index := 1 }

def cfgLaunch : DebugConfiguration := { name := "Launch", type := some "node", configurations := none }

def cfgTest : DebugConfiguration := { name := "Test", type := some "node", configurations := none }

def cfgColonName : DebugConfiguration := { name := "a:b", type := some "node", configurations := none }

def cfgFullStack : DebugConfiguration := { name := "Full Stack", type := none, configurations := some ["Launch", "Test"] }

def cfgNodeA : DebugConfiguration := { name := "A", type := some "node", configurations := none }

def cfgPythonA : DebugConfiguration := { name := "A", type := some "python", configurations := none }

def cfgNodeB : DebugConfiguration := { name := "B", type := some "node", configurations := none }

def wsOne : Option (List LaunchRoot) := some [{ folder := folderR, configurations := [cfgLaunch], compounds := [] }]

def entryRLaunch : LaunchConfig := { name := "Launch", config := cfgLaunch, folder := folderR }

def wsColon : Option (List LaunchRoot) := some [{ folder := folderR, configurations := [cfgColonName], compounds := [] }]

def entryColon : LaunchConfig := { name := "a:b", config := cfgColonName, folder := folderR }

def wsAB : Option (List LaunchRoot) :=
  some [{ folder := folderA, configurations := [cfgLaunch], compounds := [] },
        { folder := folderB, configurations := [cfgLaunch], compounds := [] }]

def entryBLaunch : LaunchConfig := { name := "Launch", config := cfgLaunch, folder := folderB }

def wsCompound : Option (List LaunchRoot) :=
  some [{ folder := folderR, configurations := [], compounds := [cfgFullStack] }]

def entryFullStack : LaunchConfig := { name := "Full Stack", config := cfgFullStack, folder := folderR }

def entryRA : LaunchConfig := { name := "A", config := cfgNodeA, folder := folderR }

def entryRB : LaunchConfig := { name := "B", config := cfgNodeB, folder := folderR }

def wsA : Option (List LaunchRoot) := some [{ folder := folderR, configurations := [cfgNodeA], compounds := [] }]

def wsB : Option (List LaunchRoot) := some [{ folder := folderR, configurations := [cfgNodeB], compounds := [] }]

def wsPythonA : Option (List LaunchRoot) := some [{ folder := folderR, configurations := [cfgPythonA], compounds := [] }]

def cfgNamedA : DebugConfiguration := { name := "a", type := some "node", configurations := none }

def wsRa : Option (List LaunchRoot) :=
  some [{ folder := folderR, configurations := [cfgNamedA], compounds := [] }]

def entryRa : LaunchConfig := { name := "a", config := cfgNamedA, folder := folderR }

def wsScenarioB : Option (List LaunchRoot) :=
  some [{ folder := folderA, configurations := [cfgLaunch, cfgTest], compounds := [] }]

def entryALaunch : LaunchConfig := { name := "Launch", config := cfgLaunch, folder := folderA }

def entryATest : LaunchConfig := { name := "Test", config := cfgTest, folder := folderA }

/-- A state whose selection, when set, pair-matches some currently enumerated
entry — the sense in which a selection is "revalidated against the current
enumeration". -/
def SelValid (st : SysState) : Prop :=
  ∀ s, st.sel = some s → ∃ c ∈ getAllConfigs st.ws, samePair c s

/-! Helper lemmas shared by the claim theorems. -/

theorem samePair_self (c : LaunchConfig) : samePair c c := ⟨rfl, rfl⟩

theorem getAllConfigs_eq (roots : List LaunchRoot) :
    getAllConfigs (some roots) = roots.flatMap (fun r =>
      (r.configurations ++ r.compounds).map
        (fun config => { name := config.name, config := config, folder := r.folder })) := by
  have hgo : ∀ (rs : List LaunchRoot) (acc : List LaunchConfig),
      rs.foldl (fun configs folder =>
        configs ++ ([folder.configurations, folder.compounds].flatten).map
          (fun config => { name := config.name, config := config, folder := folder.folder }))
        acc
      = acc ++ rs.flatMap (fun r =>
          (r.configurations ++ r.compounds).map
            (fun config => { name := config.name, config := config, folder := r.folder })) := by
    intro rs
    induction rs with
    | nil => intro acc; simp
    | cons r rs ih =>
      intro acc
      rw [List.foldl_cons, ih]
      simp [List.flatten, List.append_assoc]
  simpa [getAllConfigs] using hgo roots []

theorem mem_getAllConfigs_name {ws : Option (List LaunchRoot)} {cfg : LaunchConfig}
    (h : cfg ∈ getAllConfigs ws) : cfg.name = cfg.config.name := by
  match ws with
  | none => simp [getAllConfigs] at h
  | some roots =>
    rw [getAllConfigs_eq] at h
    obtain ⟨r, _, hmem⟩ := List.mem_flatMap.mp h
    obtain ⟨c, _, rfl⟩ := List.mem_map.mp hmem
    rfl

theorem any_samePair_iff (configs : List LaunchConfig) (s : LaunchConfig) :
    (configs.any (fun cfg => cfg.folder.name == s.folder.name && cfg.name == s.name) = true)
      ↔ ∃ c ∈ configs, samePair c s := by
  simp [List.any_eq_true, samePair]

theorem head?_mem {α : Type} {l : List α} {a : α} (h : l.head? = some a) : a ∈ l := by
  cases l with
  | nil => simp at h
  | cons x xs => simp_all

theorem reconcile_some_valid {sel : Option LaunchConfig} {ws : Option (List LaunchRoot)}
    {s : LaunchConfig} (h : reconcile sel ws = some s) :
    ∃ c ∈ getAllConfigs ws, samePair c s := by
  match sel with
  | none => simp [reconcile] at h
  | some s0 =>
    simp only [reconcile] at h
    by_cases hany : (getAllConfigs ws).any
        (fun cfg => cfg.folder.name == s0.folder.name && cfg.name == s0.name) = true
    · rw [if_pos hany] at h
      cases h
      exact (any_samePair_iff _ _).mp hany
    · rw [if_neg hany] at h
      exact ⟨s, head?_mem h, samePair_self s⟩

theorem splitKey_append (a b : String)
    (ha : ∀ ch ∈ a.data, ch ≠ ':') (hb : ∀ ch ∈ b.data, ch ≠ ':') :
    splitKey (a ++ ":" ++ b) = [a, b] := by
  unfold splitKey
  have hdata : (a ++ ":" ++ b).data = a.data ++ ':' :: b.data := by
    simp [String.data_append]
  rw [hdata,
    List.splitOnP_first _ _ (fun x hx => by simpa using ha x hx) ':' (by simp),
    List.splitOnP_eq_single _ _ (fun x hx => by simpa using hb x hx)]
  rfl

theorem splitKey_no_colon (key : String) (h : ∀ ch ∈ key.data, ch ≠ ':') :
    splitKey key = [key] := by
  unfold splitKey
  rw [List.splitOnP_eq_single _ _ (fun x hx => by simpa using h x hx)]
  rfl

theorem find?_congr {α : Type} (l : List α) (p q : α → Bool) (h : ∀ a, p a = q a) :
    l.find? p = l.find? q := by
  induction l with
  | nil => rfl
  | cons x xs ih => simp [List.find?_cons, h x, ih]

theorem find?_eq_of_unique {α : Type} (l : List α) (p : α → Bool) (e : α)
    (he : e ∈ l) (hpe : p e = true) (huniq : ∀ c ∈ l, p c = true → c = e) :
    l.find? p = some e := by
  induction l with
  | nil => cases he
  | cons x xs ih =>
    by_cases hx : p x = true
    · have hxe : x = e := huniq x (List.mem_cons_self x xs) hx
      subst hxe
      simp [List.find?_cons, hx]
    · have hxe : e ≠ x := fun hex => hx (hex ▸ hpe)
      have hexs : e ∈ xs := by
        cases List.mem_cons.mp he with
        | inl h => exact absurd h hxe
        | inr h => exact h
      simp only [List.find?_cons]
      rw [show p x = false from Bool.eq_false_iff.mpr hx]
      exact ih hexs (fun c hc hpc => huniq c (List.mem_cons_of_mem x hc) hpc)

theorem getConfigFromKey_of_no_second (key : String) (ws : Option (List LaunchRoot))
    (h : (splitKey key)[1]? = none) : getConfigFromKey key ws = none := by
  simp only [getConfigFromKey, h]
  exact List.find?_eq_none.mpr (fun x _ => by simp)

theorem getConfigFromKey_mem {key : String} {ws : Option (List LaunchRoot)}
    {c : LaunchConfig} (h : getConfigFromKey key ws = some c) : c ∈ getAllConfigs ws := by
  simp only [getConfigFromKey] at h
  exact List.mem_of_find?_eq_some h

theorem updateStatusBar_true (sel : Option LaunchConfig) (ws : Option (List LaunchRoot)) :
    updateStatusBar true sel ws = reconcile sel ws := by
  simp [updateStatusBar]

theorem updateStatusBar_false (sel : Option LaunchConfig) (ws : Option (List LaunchRoot)) :
    updateStatusBar false sel ws = sel := by
  simp [updateStatusBar]

theorem selectStep_ws (b : Bool) (st : SysState) (pick : Option Nat) :
    (selectStep b st pick).ws = st.ws := by
  simp only [selectStep]
  cases pick with
  | none => split <;> rfl
  | some i =>
    split
    · rfl
    · split
      · rfl
      · split <;> rfl

theorem initialSelection_valid {pk : Option String} {ws : Option (List LaunchRoot)}
    {s : LaunchConfig} (h : initialSelection pk ws = some s) :
    ∃ c ∈ getAllConfigs ws, samePair c s := by
  unfold initialSelection at h
  cases pk with
  | none =>
    simp only at h
    exact ⟨s, head?_mem h, samePair_self s⟩
  | some k =>
    by_cases hk : (k == "") = true
    · simp only [hk, if_true] at h
      exact ⟨s, head?_mem h, samePair_self s⟩
    · have hkb : (k == "") = false := Bool.eq_false_iff.mpr hk
      simp only [hkb, Bool.false_eq_true, if_false] at h
      cases hres : getConfigFromKey k ws with
      | some c =>
        simp only [hres, Option.some.injEq] at h
        exact ⟨c, getConfigFromKey_mem hres, h ▸ samePair_self c⟩
      | none =>
        simp only [hres] at h
        exact ⟨s, head?_mem h, samePair_self s⟩

theorem selValid_initialState (pk : Option String) (ws : Option (List LaunchRoot)) :
    SelValid (initialState pk ws) := by
  intro s hs
  exact initialSelection_valid hs

theorem selValid_selectStep {st : SysState} {pick : Option Nat}
    (h : SelValid st) : SelValid (selectStep true st pick) := by
  simp only [selectStep]
  cases pick with
  | none => split <;> exact h
  | some i =>
    split
    · exact h
    · split
      · exact h
      · split
        · exact h
        · rename_i cfg hcfg
          intro s hs
          have hs2 : updateStatusBar true (some cfg) st.ws = some s := hs
          rw [updateStatusBar_true] at hs2
          exact reconcile_some_valid hs2

theorem selValid_step {st : SysState} (e : Event) (h : SelValid st) :
    SelValid (step true st e).1 := by
  cases e with
  | configurationChanged ws2 =>
    intro s hs
    simp only [step] at hs
    rw [updateStatusBar_true] at hs
    exact reconcile_some_valid hs
  | selectConfig pick =>
    simp only [step]
    exact selValid_selectStep h
  | runSelected pick =>
    simp only [step]
    split
    · exact h
    · split
      · exact selValid_selectStep h
      · exact selValid_selectStep h
  | debugSelected pick =>
    simp only [step]
    split
    · exact h
    · split
      · exact selValid_selectStep h
      · exact selValid_selectStep h

theorem selValid_runEvents (events : List Event) {st : SysState} (h : SelValid st) :
    SelValid (runEvents true st events) := by
  induction events generalizing st with
  | nil => exact h
  | cons e es ih => exact ih (selValid_step e h)

/-! Claim theorems. -/

/-- Claim C9 (confirmed): `getAllConfigs` returns, for each root in
root-iteration order, that root's plain configurations followed by its
compounds, each sublist in declaration order; and the empty sequence when no
roots exist (both an undefined folder list and an empty one). -/
theorem getAllConfigs_order :
    (∀ roots : List LaunchRoot, getAllConfigs (some roots) = roots.flatMap (fun r =>
      r.configurations.map (fun c => { name := c.name, config := c, folder := r.folder }) ++
      r.compounds.map (fun c => { name := c.name, config := c, folder := r.folder })))
    ∧ getAllConfigs none = [] ∧ getAllConfigs (some []) = [] := by
  refine ⟨fun roots => ?_, rfl, rfl⟩
  rw [getAllConfigs_eq]
  simp [List.map_append]

/-- Claim C8 (confirmed): reconciliation is idempotent — applying the
validation block of `updateStatusBar` twice against the same workspace yields
the same selection as applying it once. -/
theorem reconcile_idempotent (sel : Option LaunchConfig) (ws : Option (List LaunchRoot)) :
    reconcile (reconcile sel ws) ws = reconcile sel ws := by
  match sel with
  | none => rfl
  | some s0 =>
    by_cases hany : (getAllConfigs ws).any
        (fun cfg => cfg.folder.name == s0.folder.name && cfg.name == s0.name) = true
    · simp only [reconcile, if_pos hany]
    · simp only [reconcile, if_neg hany]
      match hh : (getAllConfigs ws).head? with
      | none => rfl
      | some h0 =>
        have hmem : h0 ∈ getAllConfigs ws := head?_mem hh
        have : (getAllConfigs ws).any
            (fun cfg => cfg.folder.name == h0.folder.name && cfg.name == h0.name) = true :=
          (any_samePair_iff _ _).mpr ⟨h0, hmem, samePair_self h0⟩
        simp only [reconcile, if_pos this, hh]

/-- Claim C4 (confirmed): after reconciliation, a selection whose (root name,
config name) pair matches no enumerated entry is replaced by the first
enumerated entry (`head?`, which is `none` exactly when the enumeration is
empty); and with an empty enumeration the post-reconcile selection is `none`
regardless of the prior value. -/
theorem reconcile_repair (ws : Option (List LaunchRoot)) (s : LaunchConfig) :
    ((∀ c ∈ getAllConfigs ws, ¬samePair c s) →
      reconcile (some s) ws = (getAllConfigs ws).head?)
    ∧ ∀ prior : Option LaunchConfig, getAllConfigs ws = [] → reconcile prior ws = none := by
  constructor
  · intro hnone
    have hany : ¬((getAllConfigs ws).any
        (fun cfg => cfg.folder.name == s.folder.name && cfg.name == s.name) = true) := by
      rw [any_samePair_iff]
      rintro ⟨c, hc, hp⟩
      exact hnone c hc hp
    simp only [reconcile, if_neg hany]
  · intro prior hempty
    match prior with
    | none => rfl
    | some s0 => simp only [reconcile, hempty]; rfl

/-- Witness for `reconcile_repair`: Scenario C — the selected `Launch` in root
`R` is deleted, leaving only `Test`; reconcile replaces the selection with the
first remaining entry. -/
theorem reconcile_repair_witness :
    reconcile (some entryRLaunch)
        (some [{ folder := folderR, configurations := [cfgTest], compounds := [] }])
      = some { name := "Test", config := cfgTest, folder := folderR }
    ∧ reconcile (some entryRLaunch) (some []) = none := by
  constructor
  · have h := (reconcile_repair
      (some [{ folder := folderR, configurations := [cfgTest], compounds := [] }])
      entryRLaunch).1 (by decide)
    rw [h]
    rfl
  · exact (reconcile_repair (some []) entryRLaunch).2 (some entryRLaunch) (by decide)

/-- Claim C10 (confirmed): when the current enumeration still contains an
entry matching the selection's (root name, config name) pair, reconciliation
leaves the selection object — including its configuration payload — entirely
unchanged, and a subsequent run dispatch uses that retained payload. -/
theorem reconcile_retains_stale_payload (ws0 ws : Option (List LaunchRoot))
    (s : LaunchConfig) (pk : Option String)
    (h : ∃ c ∈ getAllConfigs ws, samePair c s) :
    (step true { ws := ws0, sel := some s, persistedKey := pk }
        (.configurationChanged ws)).1.sel = some s
    ∧ (step true ((step true { ws := ws0, sel := some s, persistedKey := pk }
        (.configurationChanged ws)).1) (.runSelected none)).2 = some (s, true) := by
  have hrec : reconcile (some s) ws = some s := by
    have hany : (getAllConfigs ws).any
        (fun cfg => cfg.folder.name == s.folder.name && cfg.name == s.name) = true :=
      (any_samePair_iff _ _).mpr h
    simp only [reconcile, if_pos hany]
  have hupd : updateStatusBar true (some s) ws = some s := by
    simp only [updateStatusBar, if_pos rfl]
    exact hrec
  constructor
  · simp only [step]
    exact hupd
  · simp only [step, hupd]

/-- Witness for `reconcile_retains_stale_payload`: the selection holds the old
`node`-typed payload for `A`; the workspace now enumerates a `python`-typed
payload under the same (root, name) pair; reconcile keeps the old object and
the dispatch carries the old payload. -/
theorem reconcile_retains_stale_payload_witness :
    (step true { ws := wsA, sel := some entryRA, persistedKey := none }
        (.configurationChanged wsPythonA)).1.sel = some entryRA
    ∧ (step true ((step true { ws := wsA, sel := some entryRA, persistedKey := none }
        (.configurationChanged wsPythonA)).1) (.runSelected none)).2 = some (entryRA, true) :=
  reconcile_retains_stale_payload wsA wsPythonA entryRA none (by decide)

/-- Claim C3 (confirmed): for an enumerated entry, the dispatch target is the
entry's name string iff its configuration object carries a `configurations`
property and no `type` property; in every other case it is the full
configuration payload object. -/
theorem dispatch_target (ws : Option (List LaunchRoot)) (cfg : LaunchConfig)
    (h : cfg ∈ getAllConfigs ws) :
    (configToStart cfg = .byName cfg.name ↔
      (cfg.config.configurations.isSome = true ∧ cfg.config.type = none))
    ∧ (¬(cfg.config.configurations.isSome = true ∧ cfg.config.type = none) →
      configToStart cfg = .byConfig cfg.config) := by
  have hname : cfg.name = cfg.config.name := mem_getAllConfigs_name h
  have hcompound : isCompound cfg.config = true ↔
      (cfg.config.configurations.isSome = true ∧ cfg.config.type = none) := by
    cases htype : cfg.config.type <;> simp [isCompound, htype]
  constructor
  · constructor
    · intro htarget
      by_cases hc : isCompound cfg.config = true
      · exact hcompound.mp hc
      · simp only [configToStart, if_neg hc] at htarget
        exact absurd htarget (by simp)
    · intro hprops
      simp only [configToStart, if_pos (hcompound.mpr hprops), hname]
  · intro hprops
    have hc : ¬(isCompound cfg.config = true) := fun hc => hprops (hcompound.mp hc)
    simp only [configToStart, if_neg hc]

/-- Witness for `dispatch_target`: Scenario D — the compound `Full Stack`
(member list present, no execution type) dispatches by its name string. -/
theorem dispatch_target_witness :
    configToStart entryFullStack = .byName entryFullStack.name :=
  ((dispatch_target wsCompound entryFullStack (by decide)).1).mpr (by decide)

/-- Claim C1 (counterexample): the unrestricted key round-trip fails. With a
single root `R` holding a configuration named `a:b`, the entry's key is
`R:a:b`; `getConfigFromKey` splits it into components `R` and `a` and finds
nothing, so resolving the key of an enumerated entry returns `none` instead
of the entry. -/
theorem key_roundtrip_cex :
    entryColon ∈ getAllConfigs wsColon
    ∧ getConfigFromKey (getConfigKey entryColon) wsColon = none := by decide

/-- Claim C1 (amended): the key round-trip holds for every enumerated entry
whose root name and configuration name are free of the delimiter `:` and
whose (root name, config name) pair identifies it uniquely in the
enumeration. -/
theorem key_roundtrip (ws : Option (List LaunchRoot)) (e : LaunchConfig)
    (he : e ∈ getAllConfigs ws)
    (hfolder : ∀ ch ∈ e.folder.name.data, ch ≠ ':')
    (hname : ∀ ch ∈ e.name.data, ch ≠ ':')
    (huniq : ∀ c ∈ getAllConfigs ws, samePair c e → c = e) :
    getConfigFromKey (getConfigKey e) ws = some e := by
  have hsplit : splitKey (getConfigKey e) = [e.folder.name, e.name] :=
    splitKey_append e.folder.name e.name hfolder hname
  simp only [getConfigFromKey, hsplit, List.getElem?_cons_zero, List.getElem?_cons_succ]
  exact find?_eq_of_unique _ _ e he (by simp)
    (fun c hc hpc => huniq c hc (by simpa [samePair] using hpc))

/-- Witness for `key_roundtrip`: the single entry `Launch` in root `R`
round-trips through its key `R:Launch`. -/
theorem key_roundtrip_witness :
    getConfigFromKey (getConfigKey entryRLaunch) wsOne = some entryRLaunch :=
  key_roundtrip wsOne entryRLaunch (by decide) (by decide) (by decide) (by decide)

/-- Claim C2 (counterexample): `resolve` does not split on the first `:` only.
For the key `R:a:b` the specification's reading (components `R` and `a:b`)
finds the enumerated entry `a:b` of root `R`, while the code
(`key.split(':')` then the first two components, `R` and `a`) returns
`none`. -/
theorem resolve_first_colon_cex :
    resolveSpec "R:a:b" wsColon = some entryColon
    ∧ entryColon ∈ getAllConfigs wsColon
    ∧ getConfigFromKey "R:a:b" wsColon = none := by decide

/-- Claim C2 (amended): `resolve` splits the key on every `:` and keeps the
first two components. A key whose split has a single component (no
separator, characterised both by its split form and directly by
delimiter-freeness) yields `none`; a key whose split is `a :: b :: rest`
(so for a key with several colons the config-name component is only the
segment between the first two) returns the first enumerated entry matching
(root name `a`, config name `b`) exactly, `none` when no entry matches; and
Scenario A: with roots `RootA` and `RootB` each holding `Launch`, the key
`RootB:Launch` resolves to `RootB`'s entry. -/
theorem resolve_contract (ws : Option (List LaunchRoot)) (key a b : String) :
    (splitKey key = [a] → getConfigFromKey key ws = none)
    ∧ (∀ rest : List String, splitKey key = a :: b :: rest →
      getConfigFromKey key ws =
        (getAllConfigs ws).find? (fun cfg => cfg.folder.name == a && cfg.name == b))
    ∧ ((∀ ch ∈ key.data, ch ≠ ':') → getConfigFromKey key ws = none)
    ∧ getConfigFromKey "RootB:Launch" wsAB = some entryBLaunch := by
  refine ⟨fun hone => ?_, fun rest hsplit => ?_, fun hkey => ?_, by decide⟩
  · refine getConfigFromKey_of_no_second key ws ?_
    rw [hone]
    rfl
  · simp only [getConfigFromKey, hsplit, List.getElem?_cons_zero, List.getElem?_cons_succ]
    exact find?_congr _ _ _ (fun cfg => by simp)
  · refine getConfigFromKey_of_no_second key ws ?_
    rw [splitKey_no_colon key hkey]
    rfl

/-- Witness for `resolve_contract`: the single-component key `R` yields none;
the multi-colon key `R:a:b` is looked up by its first two components `R` and
`a`, finding the enumerated entry named `a` of root `R`; the separator-free
key `Launch` yields none. -/
theorem resolve_contract_witness :
    getConfigFromKey "R" wsOne = none
    ∧ getConfigFromKey "R:a:b" wsRa =
        (getAllConfigs wsRa).find? (fun cfg => cfg.folder.name == "R" && cfg.name == "a")
    ∧ getConfigFromKey "Launch" wsOne = none
    ∧ (getAllConfigs wsRa).find? (fun cfg => cfg.folder.name == "R" && cfg.name == "a")
        = some entryRa :=
  ⟨(resolve_contract wsOne "R" "R" "").1 (by decide),
   (resolve_contract wsRa "R:a:b" "R" "a").2.1 ["b"] (by decide),
   (resolve_contract wsOne "Launch" "Launch" "").2.2.1 (by decide),
   by decide⟩

/-- Claim C5 (confirmed): startup selection returns the entry resolved from
the persisted key when resolution succeeds; otherwise (no key, or every
stored key fails to resolve — which includes the falsy empty string, since
the empty key can never resolve) it returns the first enumerated entry, and
`none` when the enumeration is empty (`head?` covers both). -/
theorem initial_selection (pk : Option String) (ws : Option (List LaunchRoot)) :
    (∀ k e, pk = some k → getConfigFromKey k ws = some e → initialSelection pk ws = some e)
    ∧ ((∀ k, pk = some k → getConfigFromKey k ws = none) →
      initialSelection pk ws = (getAllConfigs ws).head?) := by
  constructor
  · intro k e hpk hres
    subst hpk
    by_cases hk : k = ""
    · subst hk
      rw [getConfigFromKey_of_no_second "" ws (by decide)] at hres
      cases hres
    · have hkb : (k == "") = false := by simpa using hk
      simp [initialSelection, hkb, hres]
  · intro hfail
    cases pk with
    | none => simp [initialSelection]
    | some k =>
      by_cases hk : k = ""
      · subst hk
        simp [initialSelection]
      · have hkb : (k == "") = false := by simpa using hk
        simp [initialSelection, hkb, hfail k rfl]

/-- Witness for `initial_selection`: the persisted key `R:Launch` resolves and
is restored; and Scenario B — no persisted key, enumeration `[Launch, Test]`
in `RootA` — selects `Launch`, the first in order. -/
theorem initial_selection_witness :
    initialSelection (some "R:Launch") wsOne = some entryRLaunch
    ∧ initialSelection none wsScenarioB = (getAllConfigs wsScenarioB).head?
    ∧ (getAllConfigs wsScenarioB).head? = some entryALaunch :=
  ⟨(initial_selection (some "R:Launch") wsOne).1 "R:Launch" entryRLaunch rfl (by decide),
   (initial_selection none wsScenarioB).2 (fun k hk => by cases hk),
   by decide⟩

/-- Claim C6 (counterexample): when the status-bar items were never created
(`showInStatusBar` disabled at startup), `updateStatusBar` returns at its
guard without validating, so a configuration-change event leaves a stale
selection in place and a subsequent run command dispatches an entry that
matches nothing in the current (empty) enumeration. -/
theorem dispatch_revalidated_cex :
    (step false ((step false (initialState none wsA) (.configurationChanged none)).1)
      (.runSelected none)).2 = some (entryRA, true)
    ∧ getAllConfigs ((step false (initialState none wsA) (.configurationChanged none)).1).ws
      = [] := by decide

/-- Claim C6 (amended): provided the status-bar items exist, every run or
debug dispatch reachable from startup carries a selection whose (root name,
config name) pair matches an entry of the current enumeration — each
invalidating event having re-run the validation block before the dispatch. -/
theorem dispatch_revalidated (pk : Option String) (ws0 : Option (List LaunchRoot))
    (events : List Event) (e : Event) (cfg : LaunchConfig) (noDebug : Bool)
    (h : (step true (runEvents true (initialState pk ws0) events) e).2 = some (cfg, noDebug)) :
    ∃ c ∈ getAllConfigs (runEvents true (initialState pk ws0) events).ws, samePair c cfg := by
  have hval : SelValid (runEvents true (initialState pk ws0) events) :=
    selValid_runEvents events (selValid_initialState pk ws0)
  set st := runEvents true (initialState pk ws0) events with hst
  cases e with
  | configurationChanged ws2 => simp [step] at h
  | selectConfig pick => simp [step] at h
  | runSelected pick =>
    simp only [step] at h
    cases hsel : st.sel with
    | some c0 =>
      rw [hsel] at h
      simp only [Option.some.injEq, Prod.mk.injEq] at h
      obtain ⟨rfl, -⟩ := h
      exact hval c0 hsel
    | none =>
      rw [hsel] at h
      cases hsel2 : (selectStep true st pick).sel with
      | some c0 =>
        rw [hsel2] at h
        simp only [Option.some.injEq, Prod.mk.injEq] at h
        obtain ⟨rfl, -⟩ := h
        have hv2 : SelValid (selectStep true st pick) := selValid_selectStep hval
        obtain ⟨c, hc, hp⟩ := hv2 c0 hsel2
        rw [selectStep_ws] at hc
        exact ⟨c, hc, hp⟩
      | none =>
        rw [hsel2] at h
        cases h
  | debugSelected pick =>
    simp only [step] at h
    cases hsel : st.sel with
    | some c0 =>
      rw [hsel] at h
      simp only [Option.some.injEq, Prod.mk.injEq] at h
      obtain ⟨rfl, -⟩ := h
      exact hval c0 hsel
    | none =>
      rw [hsel] at h
      cases hsel2 : (selectStep true st pick).sel with
      | some c0 =>
        rw [hsel2] at h
        simp only [Option.some.injEq, Prod.mk.injEq] at h
        obtain ⟨rfl, -⟩ := h
        have hv2 : SelValid (selectStep true st pick) := selValid_selectStep hval
        obtain ⟨c, hc, hp⟩ := hv2 c0 hsel2
        rw [selectStep_ws] at hc
        exact ⟨c, hc, hp⟩
      | none =>
        rw [hsel2] at h
        cases h

/-- Witness for `dispatch_revalidated`: at startup with one configuration and
no events in between, the run dispatch carries `Launch` of root `R`, which
matches the current enumeration. -/
theorem dispatch_revalidated_witness :
    ∃ c ∈ getAllConfigs (runEvents true (initialState none wsOne) []).ws,
      samePair c entryRLaunch :=
  dispatch_revalidated none wsOne [] (.runSelected none) entryRLaunch true (by decide)

/-- Claim C7 (counterexample): reconciliation replaces a stale selection
without writing the persisted key. Starting from persisted key `R:A` with
entry `A` selected, a configuration change leaving only `B` reconciles the
selection to `B`, yet `lastConfigKey` still holds `R:A`, which is not the new
selection's key `R:B`. -/
theorem persisted_key_cex :
    ((step true (initialState (some "R:A") wsA) (.configurationChanged wsB)).1).sel
      = some entryRB
    ∧ ((step true (initialState (some "R:A") wsA) (.configurationChanged wsB)).1).persistedKey
      = some "R:A"
    ∧ getConfigKey entryRB ≠ "R:A" := by decide

/-- Claim C7 (amended): only explicit user selection writes the persisted
key: a successful pick stores the chosen entry's key (and selects it), while
a configuration-change event — even one whose reconciliation replaces or
clears the selection — leaves the persisted key unchanged. -/
theorem persisted_key_tracking (b : Bool) (st : SysState) (i : Nat) (cfg : LaunchConfig) :
    ((getAllConfigs st.ws)[i]? = some cfg →
      (step b st (.selectConfig (some i))).1.persistedKey = some (getConfigKey cfg)
      ∧ (step b st (.selectConfig (some i))).1.sel = some cfg)
    ∧ ∀ ws2, ((step b st (.configurationChanged ws2)).1).persistedKey = st.persistedKey := by
  constructor
  · intro hi
    have hmem : cfg ∈ getAllConfigs st.ws := List.getElem?_mem hi
    have hne : (getAllConfigs st.ws).isEmpty = false := by
      cases hcs : getAllConfigs st.ws with
      | nil => rw [hcs] at hi; cases hi
      | cons x xs => rfl
    have hupd : updateStatusBar b (some cfg) st.ws = some cfg := by
      cases b with
      | false => exact updateStatusBar_false _ _
      | true =>
        rw [updateStatusBar_true]
        have hany : (getAllConfigs st.ws).any
            (fun c => c.folder.name == cfg.folder.name && c.name == cfg.name) = true :=
          (any_samePair_iff _ _).mpr ⟨cfg, hmem, samePair_self cfg⟩
        simp only [reconcile, if_pos hany]
    simp only [step, selectStep, hne, hi, Bool.false_eq_true, if_false, hupd]
    exact ⟨by trivial, by trivial⟩
  · intro ws2
    rfl

/-- Witness for `persisted_key_tracking`: picking index 1 (`Test`) from
Scenario B's enumeration persists its key and selects it; a configuration
change leaves the persisted key of the initial state unchanged. -/
theorem persisted_key_tracking_witness :
    ((step true (initialState none wsScenarioB) (.selectConfig (some 1))).1.persistedKey
        = some (getConfigKey entryATest)
      ∧ (step true (initialState none wsScenarioB) (.selectConfig (some 1))).1.sel
        = some entryATest)
    ∧ ((step true (initialState none wsScenarioB) (.configurationChanged none)).1).persistedKey
      = (initialState none wsScenarioB).persistedKey :=
  ⟨(persisted_key_tracking true (initialState none wsScenarioB) 1 entryATest).1 (by decide),
   (persisted_key_tracking true (initialState none wsScenarioB) 1 entryATest).2 none⟩

end PersistentRunButtons
